import Mathlib

/-!
Verification of `src/models/model_utils.py` (embedding-model toolkit).

Shallow embedding conventions:
* A hidden-state tensor of shape (B, S, D) is a function
  `Fin B → Fin S → Fin D → ℚ`; an attention mask of shape (B, S) is
  `Fin B → Fin S → ℚ`.  Tensor values are modelled as rationals
  (exact arithmetic; floating point is not in scope of the claims).
* `torch` reductions (`sum(dim=1)`, `max(dim=1).values`, broadcasting
  products, `reshape`) are translated index-wise.
* A model (for `disable_dropout` / `freeze_params`) is its flattened
  list of submodules, each either an `nn.Dropout` with its probability
  `p` or an ordinary layer holding a list of parameters; a parameter
  carries its `requires_grad` flag and its flat list of values.
* `load_embedder_and_tokenizer` is embedded as the same string-dispatch
  chain, returning a symbolic description of which external artifact is
  fetched and which keyword options are passed, or an error string.
-/

/-- Maximum of a list of rationals, as `torch.max` over a dimension:
the true maximum for a nonempty list (the `0` default is never used by
the theorems, which all require a nonempty sequence axis). -/
def listMax : List ℚ → ℚ
  | [] => 0
  | x :: xs => xs.foldl max x

/-- `mean_pool` from the source: multiply hidden states by the
broadcast mask, sum over the sequence axis, divide by the per-example
mask total. -/
def mean_pool (B S D : ℕ) (hidden_states : Fin B → Fin S → Fin D → ℚ)
    (attention_mask : Fin B → Fin S → ℚ) : Fin B → Fin D → ℚ :=
  fun b d =>
    (∑ s : Fin S, hidden_states b s d * attention_mask b s) /
      (∑ s : Fin S, attention_mask b s)

/-- `max_pool` from the source: multiply hidden states by the broadcast
mask, then take the maximum over the sequence axis. -/
def max_pool (B S D : ℕ) (hidden_states : Fin B → Fin S → Fin D → ℚ)
    (attention_mask : Fin B → Fin S → ℚ) : Fin B → Fin D → ℚ :=
  fun b d =>
    listMax (((List.finRange S).map
      (fun s => hidden_states b s d * attention_mask b s)))

/-- `stack_pool` from the source: multiply hidden states by the
broadcast mask, then `reshape((B, S*D))` — row-major flattening of the
sequence and feature axes, so flat index `i` reads position `i / D`,
feature `i % D`. -/
def stack_pool (B S D : ℕ) (hidden_states : Fin B → Fin S → Fin D → ℚ)
    (attention_mask : Fin B → Fin S → ℚ) : Fin B → Fin (S * D) → ℚ :=
  fun b i =>
    have hD : 0 < D := by
      rcases Nat.eq_zero_or_pos D with h | h
      · exact absurd i.isLt (by simp [h])
      · exact h
    hidden_states b ⟨i.val / D, Nat.div_lt_of_lt_mul
        (Nat.lt_of_lt_of_le i.isLt (Nat.le_of_eq (Nat.mul_comm S D)))⟩
      ⟨i.val % D, Nat.mod_lt _ hD⟩ *
      attention_mask b ⟨i.val / D, Nat.div_lt_of_lt_mul
        (Nat.lt_of_lt_of_le i.isLt (Nat.le_of_eq (Nat.mul_comm S D)))⟩

/-- A parameter of a model: its `requires_grad` flag and its flat list
of values (`numel` is the length of that list). -/
structure ParamT where
  requires_grad : Bool
  values : List ℚ
deriving DecidableEq

/-- A submodule of a model, as enumerated by `model.modules()`: either
an `nn.Dropout` carrying its drop probability `p`, or an ordinary layer
carrying its parameters (an `nn.Dropout` has no parameters). -/
inductive NNModule where
  | dropoutM (p : ℚ)
  | layerM (layer_name : String) (params : List ParamT)
deriving DecidableEq

/-- The `isinstance(m, nn.Dropout)` test from `disable_dropout`. -/
def isDropout : NNModule → Bool
  | .dropoutM _ => true
  | .layerM _ _ => false

/-- The in-place mutation `m.p = 0.0` applied to a dropout module;
other modules are untouched. -/
def setDropoutZero : NNModule → NNModule
  | .dropoutM _ => .dropoutM 0
  | mod => mod

/-- `disable_dropout` from the source: collect the dropout submodules,
set `p = 0.0` on each, and report their number (the function itself
returns `None`; the pair holds the mutated model state and the reported
count). -/
def disable_dropout (model : List NNModule) : List NNModule × ℕ :=
  ((model.map setDropoutZero),
    (model.filter (fun mod => isDropout mod)).length)

/-- The in-place mutation `params.requires_grad = False`. -/
def freezeParam (p : ParamT) : ParamT :=
  { p with requires_grad := false }

/-- Freezing applied to one module: every parameter of a layer is
frozen; dropout modules have no parameters. -/
def freezeModule : NNModule → NNModule
  | .layerM n ps => .layerM n (ps.map freezeParam)
  | mod => mod

/-- `model.named_parameters()`: the parameters of all submodules in
order. -/
def named_parameters (model : List NNModule) : List ParamT :=
  model.flatMap (fun mod =>
    match mod with
    | .layerM _ ps => ps
    | .dropoutM _ => [])

/-- `params.numel()`: the number of elements of a parameter. -/
def numel (p : ParamT) : ℕ := p.values.length

/-- `freeze_params` from the source: set `requires_grad = False` on
every parameter, accumulating `total_num_params += params.numel()`
(the function returns `None`; the pair holds the mutated model state
and the reported total). -/
def freeze_params (model : List NNModule) : List NNModule × ℕ :=
  ((model.map freezeModule),
    (named_parameters model).foldl (fun acc p => acc + numel p) 0)

/-- The observable content of a module apart from the `requires_grad`
flags: a dropout module's probability, or a layer's name together with
its parameters' values. -/
def moduleData : NNModule → ℚ ⊕ (String × List (List ℚ))
  | .dropoutM p => Sum.inl p
  | .layerM n ps => Sum.inr (n, ps.map (fun p => p.values))

/-- A concrete two-module model used by the witnesses: one dropout
module (p = 3) and one linear layer with a single 2-element parameter. -/
def demoModel : List NNModule :=
  [NNModule.dropoutM 3, NNModule.layerM "lin" [⟨true, [1, 2]⟩]]

/-- How a branch of `load_embedder_and_tokenizer` fetches its model
from the external pretrained-model repository: which API is called, on
which artifact name, and (for the `AutoModel.from_pretrained` calls)
whether the `low_cpu_mem_usage` / `output_hidden_states` keyword
options are passed. -/
inductive LoadMethod where
  | dprContextEncoder (artifact : String)
  | sentenceTransformerLoad (artifact : String)
  | autoModelPretrained (artifact : String)
      (low_cpu_mem_usage : Bool) (output_hidden_states : Bool)
  | autoModelPretrainedEncoder (artifact : String)
      (low_cpu_mem_usage : Bool) (output_hidden_states : Bool)
  | autoModelFromConfigEncoder (artifact : String)
deriving DecidableEq

/-- How a branch obtains its tokenizer: `AutoTokenizer.from_pretrained`
on an artifact name, or `model.tokenizer` of a SentenceTransformer. -/
inductive TokenizerMethod where
  | autoTokenizer (artifact : String)
  | fromModel
deriving DecidableEq

/-- The (model, tokenizer) pair returned by a successful load,
symbolically. -/
structure LoaderResult where
  model : LoadMethod
  tokenizer : TokenizerMethod
deriving DecidableEq

/-- `load_embedder_and_tokenizer` from the source: the same
string-dispatch chain, branch by branch; the final `else` raises
`ValueError(f"unknown embedder \x7bname\x7d")`, embedded as an `error`
result. -/
def load_embedder_and_tokenizer (name : String) : Except String LoaderResult :=
  if name = "dpr" then
    .ok ⟨.dprContextEncoder "facebook/dpr-ctx_encoder-single-nq-base",
      .autoTokenizer "facebook/dpr-ctx_encoder-single-nq-base"⟩
  else if name = "dpr_st" then
    .ok ⟨.sentenceTransformerLoad
        "sentence-transformers/facebook-dpr-question_encoder-multiset-base",
      .fromModel⟩
  else if name = "contriever" then
    .ok ⟨.autoModelPretrained "facebook/contriever" true true,
      .autoTokenizer "facebook/contriever"⟩
  else if name = "bert" then
    .ok ⟨.autoModelPretrained "bert-base-uncased" true true,
      .autoTokenizer "bert-base-uncased"⟩
  else if name = "gtr_base" then
    .ok ⟨.autoModelPretrainedEncoder "sentence-transformers/gtr-t5-base"
        true true,
      .autoTokenizer "sentence-transformers/gtr-t5-base"⟩
  else if name = "gtr_base__random_init" then
    .ok ⟨.autoModelFromConfigEncoder "sentence-transformers/gtr-t5-base",
      .autoTokenizer "sentence-transformers/gtr-t5-base"⟩
  else if name = "gtr_base_st" then
    .ok ⟨.sentenceTransformerLoad "sentence-transformers/gtr-t5-base",
      .fromModel⟩
  else if name = "gtr_large" then
    .ok ⟨.sentenceTransformerLoad "sentence-transformers/gtr-t5-large",
      .fromModel⟩
  else if name = "ance_tele" then
    .ok ⟨.autoModelPretrained "OpenMatch/ance-tele_nq_psg-encoder" true true,
      .autoTokenizer "OpenMatch/ance-tele_nq_psg-encoder"⟩
  else if name = "paraphrase-distilroberta" then
    .ok ⟨.autoModelPretrained
        "sentence-transformers/paraphrase-distilroberta-base-v1" true true,
      .autoTokenizer "sentence-transformers/paraphrase-distilroberta-base-v1"⟩
  else
    .error ("unknown embedder " ++ name)

/-- `MODEL_NAMES` from the source (the enumerated identifier set). -/
def MODEL_NAMES : List String :=
  ["bert", "contriever", "dpr", "gtr_base", "gtr_base__random_init",
   "gtr_large", "ance_tele", "dpr_st", "gtr_base_st",
   "paraphrase-distilroberta"]

/-- Whether a load result is a success (did not reach the error
branch). -/
def exceptIsOk : Except String LoaderResult → Bool
  | .ok _ => true
  | .error _ => false

/-- Whether a model fetch passes both the `low_cpu_mem_usage` and the
`output_hidden_states` keyword options. -/
def passesHiddenStateKwargs : LoadMethod → Bool
  | .autoModelPretrained _ l o => l && o
  | .autoModelPretrainedEncoder _ l o => l && o
  | _ => false

/-- Whether the branch taken for `name` passes both keyword options to
its pretrained-model fetch. -/
def loadPassesKwargs (name : String) : Bool :=
  match load_embedder_and_tokenizer name with
  | .ok r => passesHiddenStateKwargs r.model
  | .error _ => false

/-- A dense linear layer `nn.Linear(n, m)`: weight matrix application
plus bias. -/
def linearLayer (m n : ℕ) (W : Fin m → Fin n → ℚ) (bias : Fin m → ℚ)
    (x : Fin n → ℚ) : Fin m → ℚ :=
  fun i => (∑ j : Fin n, W i j * x j) + bias i

/-- The prefix-embedder submodule of `PrefixReranker`: its token
embedding table (`encoder.embed_tokens`, vocabulary size V, hidden
size 768) and its forward pass, which maps `inputs_embeds` of shape
(B, L, 768) plus an attention mask of shape (B, L) to a
`last_hidden_state` of the same (B, L, 768) shape.  The forward pass is
an arbitrary function: the reranker wraps whatever encoder it was
constructed with. -/
structure PrefixEmbedder (V : ℕ) where
  embed_tokens : Fin V → Fin 768 → ℚ
  forwardFn : (B L : ℕ) → (Fin B → Fin L → Fin 768 → ℚ) →
    (Fin B → Fin L → ℚ) → (Fin B → Fin L → Fin 768 → ℚ)

/-- `PrefixReranker` from the source: the prefix embedder, the
`embedding_projection = Sequential(Linear(768, 2048), GELU(),
Linear(2048, 768))` weights, and the `score = Linear(768, 1)` head.
The GELU nonlinearity involves the Gaussian error function, which is
not rational; it is carried as an abstract scalar activation `gelu`
(the claims do not depend on its values). -/
structure PrefixReranker (V : ℕ) where
  prefix_embedder : PrefixEmbedder V
  gelu : ℚ → ℚ
  proj1_weight : Fin 2048 → Fin 768 → ℚ
  proj1_bias : Fin 2048 → ℚ
  proj2_weight : Fin 768 → Fin 2048 → ℚ
  proj2_bias : Fin 768 → ℚ
  score_weight : Fin 1 → Fin 768 → ℚ
  score_bias : Fin 1 → ℚ

/-- The `embedding_projection` sequential network applied to one
768-vector: first linear layer, pointwise GELU, second linear layer. -/
def embedding_projection (V : ℕ) (R : PrefixReranker V)
    (x : Fin 768 → ℚ) : Fin 768 → ℚ :=
  linearLayer 768 2048 R.proj2_weight R.proj2_bias
    (fun i => R.gelu (linearLayer 2048 768 R.proj1_weight R.proj1_bias x i))

/-- `torch.cat(·, dim=1)` for two batched sequences: indices below L1
read the first tensor, the rest read the second. -/
def cat1 {α : Type} (B L1 L2 : ℕ) (x : Fin B → Fin L1 → α)
    (y : Fin B → Fin L2 → α) : Fin B → Fin (L1 + L2) → α :=
  fun b i =>
    if h : i.val < L1 then x b ⟨i.val, h⟩
    else y b ⟨i.val - L1, by have := i.isLt; omega⟩

/-- `PrefixReranker.score_prefix_and_embedding` from the source:
project the completion embeddings, embed the prefix token ids,
concatenate the projected embedding (as one extra sequence position)
before the token embeddings, extend the attention mask with ones at
that position, run the prefix embedder, take the position-0 hidden
state, apply the score head, and flatten (B, 1) to (B,). -/
def score_prefix_and_embedding (V : ℕ) (R : PrefixReranker V) (B L : ℕ)
    (prefix_ids : Fin B → Fin L → Fin V)
    (attention_mask : Fin B → Fin L → ℚ)
    (embeddings : Fin B → Fin 768 → ℚ) : Fin B → ℚ :=
  let projected := fun b => embedding_projection V R (embeddings b)
  let inputs_embeds := fun b s => R.prefix_embedder.embed_tokens (prefix_ids b s)
  let all_embeddings := cat1 B 1 L (fun b _ => projected b) inputs_embeds
  let ones : Fin B → Fin 1 → ℚ := fun _ _ => 1
  let attention_mask2 := cat1 B 1 L ones attention_mask
  let model_output :=
    R.prefix_embedder.forwardFn B (1 + L) all_embeddings attention_mask2
  let output_embeddings := fun b => model_output b ⟨0, by omega⟩
  let scores := fun b =>
    linearLayer 1 768 R.score_weight R.score_bias (output_embeddings b)
  fun b => scores b 0

theorem listMax_cons_eq_foldl (x : ℚ) (xs : List ℚ) :
    listMax (x :: xs) = xs.foldl max x := rfl

theorem foldl_max_init_le (xs : List ℚ) (x : ℚ) : x ≤ xs.foldl max x := by
  induction xs generalizing x with
  | nil => exact le_refl x
  | cons y ys ih =>
      calc x ≤ max x y := le_max_left x y
        _ ≤ ys.foldl max (max x y) := ih (max x y)

theorem le_listMax (l : List ℚ) (x : ℚ) (hx : x ∈ l) : x ≤ listMax l := by
  induction l with
  | nil => cases hx
  | cons y ys ih =>
      rcases List.mem_cons.mp hx with h | h
      · subst h
        exact foldl_max_init_le ys x
      · rcases ys with _ | ⟨z, zs⟩
        · cases h
        · have hle : listMax (z :: zs) ≤ listMax (y :: z :: zs) := by
            show zs.foldl max z ≤ (z :: zs).foldl max y
            show zs.foldl max z ≤ zs.foldl max (max y z)
            clear ih hx h
            induction zs generalizing y z with
            | nil => exact le_max_right y z
            | cons w ws ihw =>
                show ws.foldl max (max z w) ≤ ws.foldl max (max (max y z) w)
                have h1 : max z w ≤ max (max y z) w :=
                  max_le_max (le_max_right y z) (le_refl w)
                calc ws.foldl max (max z w)
                    ≤ ws.foldl max (max y (max z w)) := ihw y (max z w)
                  _ = ws.foldl max (max (max y z) w) := by rw [max_assoc]
          exact le_trans (ih h) hle

theorem listMax_le (l : List ℚ) (c : ℚ) (hne : l ≠ [])
    (h : ∀ x ∈ l, x ≤ c) : listMax l ≤ c := by
  rcases l with _ | ⟨x, xs⟩
  · exact absurd rfl hne
  · show xs.foldl max x ≤ c
    have hx : x ≤ c := h x (List.mem_cons_self x xs)
    have hxs : ∀ y ∈ xs, y ≤ c := fun y hy => h y (List.mem_cons_of_mem x hy)
    clear h hne
    induction xs generalizing x with
    | nil => exact hx
    | cons y ys ih =>
        exact ih (max x y)
          (max_le hx (hxs y (List.mem_cons_self y ys)))
          (fun z hz => hxs z (List.mem_cons_of_mem y hz))

theorem listMax_mem (l : List ℚ) (hne : l ≠ []) : listMax l ∈ l := by
  rcases l with _ | ⟨x, xs⟩
  · exact absurd rfl hne
  · show xs.foldl max x ∈ x :: xs
    clear hne
    induction xs generalizing x with
    | nil => exact List.mem_singleton.mpr rfl
    | cons y ys ih =>
        show ys.foldl max (max x y) ∈ x :: y :: ys
        rcases max_choice x y with h | h <;> rw [h]
        · rcases List.mem_cons.mp (ih x) with h2 | h2
          · rw [h2]; exact List.mem_cons_self x (y :: ys)
          · exact List.mem_cons_of_mem x (List.mem_cons_of_mem y h2)
        · rcases List.mem_cons.mp (ih y) with h2 | h2
          · rw [h2]; exact List.mem_cons_of_mem x (List.mem_cons_self y ys)
          · exact List.mem_cons_of_mem x (List.mem_cons_of_mem y h2)

/-- Claim C1: for 0/1 attention masks, the value of the hidden states at
positions where the mask is 0 does not influence the output of any of
the three pooling functions: two hidden-state tensors that agree on all
mask-1 positions pool identically under mean_pool, max_pool and
stack_pool. -/
theorem pooling_mask_zero_no_influence (B S D : ℕ)
    (h h' : Fin B → Fin S → Fin D → ℚ) (m : Fin B → Fin S → ℚ)
    (h01 : ∀ b s, m b s = 0 ∨ m b s = 1)
    (hagree : ∀ b s, m b s = 1 → ∀ d, h b s d = h' b s d) :
    mean_pool B S D h m = mean_pool B S D h' m ∧
      max_pool B S D h m = max_pool B S D h' m ∧
      stack_pool B S D h m = stack_pool B S D h' m := by
  have hprod : ∀ b s d, h b s d * m b s = h' b s d * m b s := by
    intro b s d
    rcases h01 b s with hm | hm
    · rw [hm, mul_zero, mul_zero]
    · rw [hagree b s hm d]
  refine ⟨?_, ?_, ?_⟩
  · funext b d
    simp only [mean_pool]
    congr 1
    exact Finset.sum_congr rfl fun s _ => hprod b s d
  · funext b d
    simp only [max_pool]
    congr 1
    exact List.map_congr_left fun s _ => hprod b s d
  · funext b i
    simp only [stack_pool]
    exact hprod b _ _

/-- Witness for C1 at a concrete input: with a (1,2,1) shape and mask
(1,0), two tensors differing only at the masked position pool
identically. -/
theorem pooling_mask_zero_no_influence_witness :
    mean_pool 1 2 1 (fun _ s _ => if s.val = 0 then 3 else 5)
        (fun _ s => if s.val = 0 then 1 else 0) =
      mean_pool 1 2 1 (fun _ s _ => if s.val = 0 then 3 else 7)
        (fun _ s => if s.val = 0 then 1 else 0) :=
  (pooling_mask_zero_no_influence 1 2 1
    (fun _ s _ => if s.val = 0 then 3 else 5)
    (fun _ s _ => if s.val = 0 then 3 else 7)
    (fun _ s => if s.val = 0 then 1 else 0)
    (by intro b s; fin_cases s <;> simp)
    (by intro b s hm d; fin_cases s <;> simp_all)).1

/-- Claim C3: for a 0/1 mask with at least one unmasked position per
example, mean_pool row b equals the sum of the hidden vectors over the
mask-1 positions divided by the number of such positions. -/
theorem mean_pool_spec (B S D : ℕ)
    (h : Fin B → Fin S → Fin D → ℚ) (m : Fin B → Fin S → ℚ)
    (h01 : ∀ b s, m b s = 0 ∨ m b s = 1)
    (hne : ∀ b, ∃ s, m b s = 1) :
    ∀ (b : Fin B) (d : Fin D),
      mean_pool B S D h m b d =
        (∑ s ∈ Finset.univ.filter (fun s => m b s = 1), h b s d) /
          ((Finset.univ.filter (fun s => m b s = 1)).card : ℚ) := by
  intro b d
  simp only [mean_pool]
  have hnum : (∑ s : Fin S, h b s d * m b s) =
      ∑ s ∈ Finset.univ.filter (fun s => m b s = 1), h b s d := by
    rw [Finset.sum_filter]
    refine Finset.sum_congr rfl fun s _ => ?_
    rcases h01 b s with hm | hm
    · simp [hm]
    · simp [hm]
  have hden : (∑ s : Fin S, m b s) =
      ((Finset.univ.filter (fun s => m b s = 1)).card : ℚ) := by
    rw [← Finset.sum_boole]
    refine Finset.sum_congr rfl fun s _ => ?_
    rcases h01 b s with hm | hm
    · simp [hm]
    · simp [hm]
  rw [hnum, hden]

/-- Witness for C3: shape (1,2,1), hidden values 3 and 5, mask (1,0);
the masked mean equals the average over the single unmasked position. -/
theorem mean_pool_spec_witness :
    mean_pool 1 2 1 (fun _ s _ => if s.val = 0 then 3 else 5)
        (fun _ s => if s.val = 0 then 1 else 0) 0 0 =
      (∑ s ∈ Finset.univ.filter
          (fun s : Fin 2 => (if s.val = 0 then (1 : ℚ) else 0) = 1),
          (if s.val = 0 then (3 : ℚ) else 5)) /
        ((Finset.univ.filter
          (fun s : Fin 2 => (if s.val = 0 then (1 : ℚ) else 0) = 1)).card : ℚ) :=
  mean_pool_spec 1 2 1 (fun _ s _ => if s.val = 0 then 3 else 5)
    (fun _ s => if s.val = 0 then 1 else 0)
    (by intro b s; fin_cases s <;> simp)
    (by intro b; exact ⟨0, by norm_num⟩) 0 0

/-- Claim C4: for non-negative hidden states and a 0/1 mask with at
least one unmasked position, max_pool row b equals the elementwise
maximum of the hidden vectors over the mask-1 positions. -/
theorem max_pool_spec (B S D : ℕ)
    (h : Fin B → Fin S → Fin D → ℚ) (m : Fin B → Fin S → ℚ)
    (hnn : ∀ b s d, 0 ≤ h b s d)
    (h01 : ∀ b s, m b s = 0 ∨ m b s = 1) :
    ∀ (b : Fin B) (d : Fin D)
      (hne : (Finset.univ.filter (fun s => m b s = 1)).Nonempty),
      max_pool B S D h m b d =
        (Finset.univ.filter (fun s => m b s = 1)).sup' hne
          (fun s => h b s d) := by
  intro b d hne
  obtain ⟨s₀, hs₀⟩ := hne
  have hm₀ : m b s₀ = 1 := (Finset.mem_filter.mp hs₀).2
  have hlist_ne :
      ((List.finRange S).map (fun s => h b s d * m b s)) ≠ [] :=
    List.ne_nil_of_mem
      (List.mem_map.mpr ⟨s₀, List.mem_finRange s₀, rfl⟩)
  apply le_antisymm
  · apply listMax_le _ _ hlist_ne
    intro x hx
    obtain ⟨s, _, rfl⟩ := List.mem_map.mp hx
    rcases h01 b s with hm | hm
    · rw [hm, mul_zero]
      calc (0 : ℚ) ≤ h b s₀ d := hnn b s₀ d
        _ ≤ _ := Finset.le_sup' (fun s => h b s d) hs₀
    · rw [hm, mul_one]
      exact Finset.le_sup' (fun s => h b s d)
        (Finset.mem_filter.mpr ⟨Finset.mem_univ s, hm⟩)
  · apply Finset.sup'_le
    intro s hs
    have hm : m b s = 1 := (Finset.mem_filter.mp hs).2
    have : h b s d = h b s d * m b s := by rw [hm, mul_one]
    rw [this]
    exact le_listMax _ _
      (List.mem_map.mpr ⟨s, List.mem_finRange s, rfl⟩)

/-- Witness for C4: shape (1,2,1), non-negative hidden values 3 and 5,
mask (1,0); the masked max equals the maximum over the single unmasked
position. -/
theorem max_pool_spec_witness :
    max_pool 1 2 1 (fun _ s _ => if s.val = 0 then 3 else 5)
        (fun _ s => if s.val = 0 then 1 else 0) 0 0 =
      (Finset.univ.filter
          (fun s : Fin 2 => (if s.val = 0 then (1 : ℚ) else 0) = 1)).sup'
        (⟨0, by norm_num⟩ :
          (Finset.univ.filter
            (fun s : Fin 2 => (if s.val = 0 then (1 : ℚ) else 0) = 1)).Nonempty)
        (fun s => if s.val = 0 then (3 : ℚ) else 5) :=
  max_pool_spec 1 2 1 (fun _ s _ => if s.val = 0 then 3 else 5)
    (fun _ s => if s.val = 0 then 1 else 0)
    (by intro b s d; fin_cases s <;> norm_num)
    (by intro b s; fin_cases s <;> simp) 0 0 _

/-- Claim C5: stack_pool is the masked hidden states flattened along
the sequence and feature axes: the flat entry at index s*D + d of row b
is hidden_states b s d times mask b s. -/
theorem stack_pool_spec (B S D : ℕ)
    (h : Fin B → Fin S → Fin D → ℚ) (m : Fin B → Fin S → ℚ) :
    ∀ (b : Fin B) (s : Fin S) (d : Fin D) (i : Fin (S * D)),
      i.val = s.val * D + d.val →
      stack_pool B S D h m b i = h b s d * m b s := by
  intro b s d i hi
  have hD : 0 < D := Nat.lt_of_le_of_lt (Nat.zero_le _) d.isLt
  have h1 : i.val / D = s.val := by
    rw [hi, Nat.add_comm, Nat.add_mul_div_right _ _ hD,
      Nat.div_eq_of_lt d.isLt, Nat.zero_add]
  have h2 : i.val % D = d.val := by
    rw [hi, Nat.mul_comm, Nat.mul_add_mod, Nat.mod_eq_of_lt d.isLt]
  simp only [stack_pool, h1, h2, Fin.eta]

/-- Witness for C5: shape (1,2,2), flat index 3 = 1*2 + 1 reads
position 1, feature 1, times the mask at position 1. -/
theorem stack_pool_spec_witness :
    stack_pool 1 2 2 (fun _ s d => (s.val : ℚ) + 2 * d.val)
        (fun _ s => if s.val = 0 then 1 else 0) 0 3 =
      ((1 : ℚ) + 2 * 1) * (if (1 : Fin 2).val = 0 then 1 else 0) :=
  stack_pool_spec 1 2 2 (fun _ s d => (s.val : ℚ) + 2 * d.val)
    (fun _ s => if s.val = 0 then 1 else 0) 0 1 1 3 rfl

/-- Claim C2: an identifier outside the enumerated MODEL_NAMES set
makes load_embedder_and_tokenizer fail with the error message
"unknown embedder " followed by the offending identifier, and every
identifier in the set takes a successful branch (never the error one). -/
theorem load_embedder_unknown_spec (name : String) :
    (name ∉ MODEL_NAMES →
      load_embedder_and_tokenizer name =
        .error ("unknown embedder " ++ name)) ∧
      (name ∈ MODEL_NAMES →
        exceptIsOk (load_embedder_and_tokenizer name) = true) := by
  constructor
  · intro hnot
    simp only [ MODEL_NAMES, List.mem_cons, List.not_mem_nil, or_false] at hnot
    push_neg at hnot
    obtain ⟨h1, h2, h3, h4, h5, h6, h7, h8, h9, h10⟩ := hnot
    simp [load_embedder_and_tokenizer, h1, h2, h3, h4, h5, h6, h7, h8, h9, h10]
  · intro hmem
    simp only [ MODEL_NAMES, List.mem_cons, List.not_mem_nil, or_false] at hmem
    rcases hmem with rfl | rfl | rfl | rfl | rfl | rfl | rfl | rfl | rfl | rfl <;>
      decide

/-- Witness for C2: "not_a_real_model" produces the exact error
message, and "bert" (a member of the set) loads successfully. -/
theorem load_embedder_unknown_spec_witness :
    load_embedder_and_tokenizer "not_a_real_model" =
        .error ("unknown embedder " ++ "not_a_real_model") ∧
      exceptIsOk (load_embedder_and_tokenizer "bert") = true :=
  ⟨(load_embedder_unknown_spec "not_a_real_model").1 (by decide),
   (load_embedder_unknown_spec "bert").2 (by decide)⟩

/-- Counterexample to claim C8: "dpr" is in the enumerated set, yet its
branch fetches via DPRContextEncoder.from_pretrained without passing
the low_cpu_mem_usage / output_hidden_states options (the source only
passes model_kwargs in the contriever, bert, gtr_base, ance_tele and
paraphrase-distilroberta branches). -/
theorem load_dpr_no_hidden_state_kwargs :
    "dpr" ∈ MODEL_NAMES ∧ loadPassesKwargs "dpr" = false := by
  decide

/-- Claim C8 as amended: every identifier whose branch fetches through
AutoModel.from_pretrained (contriever, bert, gtr_base, ance_tele,
paraphrase-distilroberta) passes both the low-memory-usage option and
the option exposing all intermediate hidden states; the remaining
branches (dpr, dpr_st, gtr_base_st, gtr_large, gtr_base__random_init)
do not pass them. -/
theorem load_automodel_passes_kwargs (name : String) :
    (name ∈ ["contriever", "bert", "gtr_base", "ance_tele",
        "paraphrase-distilroberta"] →
      loadPassesKwargs name = true) ∧
      (name ∈ ["dpr", "dpr_st", "gtr_base_st", "gtr_large",
          "gtr_base__random_init"] →
        loadPassesKwargs name = false) := by
  constructor
  · intro h
    simp only [List.mem_cons, List.not_mem_nil, or_false] at h
    rcases h with rfl | rfl | rfl | rfl | rfl <;> decide
  · intro h
    simp only [List.mem_cons, List.not_mem_nil, or_false] at h
    rcases h with rfl | rfl | rfl | rfl | rfl <;> decide

/-- Witness for the amended C8: the "bert" branch passes both options,
the "gtr_large" branch passes neither. -/
theorem load_automodel_passes_kwargs_witness :
    loadPassesKwargs "bert" = true ∧ loadPassesKwargs "gtr_large" = false :=
  ⟨(load_automodel_passes_kwargs "bert").1 (by decide),
   (load_automodel_passes_kwargs "gtr_large").2 (by decide)⟩

theorem zip_map_pairs {α β : Type} (f : α → β) (l : List α) :
    ∀ pr ∈ l.zip (l.map f), pr.2 = f pr.1 := by
  induction l with
  | nil => intro pr h; cases h
  | cons x xs ih =>
      intro pr h
      simp only [List.map_cons, List.zip_cons_cons, List.mem_cons] at h
      rcases h with rfl | h
      · rfl
      · exact ih pr h

theorem foldl_add_numel (l : List ParamT) (a : ℕ) :
    l.foldl (fun acc p => acc + numel p) a = a + (l.map numel).sum := by
  induction l generalizing a with
  | nil => simp
  | cons p ps ih =>
      simp only [List.foldl_cons, List.map_cons, List.sum_cons, ih]
      omega

/-- Claim C6: disable_dropout reports a count equal to the number of
dropout-type submodules, and in the mutated model state every module
that was a dropout module has its probability set to exactly 0 (the
function itself returns nothing; the count is only reported). -/
theorem disable_dropout_spec (model : List NNModule) :
    (disable_dropout model).2 = model.countP (fun mod => isDropout mod) ∧
      (disable_dropout model).1.length = model.length ∧
      ∀ pr ∈ model.zip (disable_dropout model).1,
        ∀ p : ℚ, pr.1 = NNModule.dropoutM p → pr.2 = NNModule.dropoutM 0 := by
  refine ⟨?_, ?_, ?_⟩
  · simp [disable_dropout, List.countP_eq_length_filter]
  · simp [disable_dropout]
  · intro pr hpr p hp
    have h2 := zip_map_pairs setDropoutZero model pr hpr
    rw [h2, hp]
    rfl

/-- Witness for C6 on the two-module demoModel: its one dropout module
(p = 3) is zeroed and the reported count is the dropout-module count. -/
theorem disable_dropout_spec_witness :
    ((NNModule.dropoutM 3, NNModule.dropoutM 0) ∈
        demoModel.zip (disable_dropout demoModel).1) ∧
      (NNModule.dropoutM 3, NNModule.dropoutM 0).2 = NNModule.dropoutM 0 :=
  ⟨by decide,
   (disable_dropout_spec demoModel).2.2 (NNModule.dropoutM 3, NNModule.dropoutM 0)
     (by decide) 3 rfl⟩

/-- Claim C7: freeze_params reports a total equal to the sum of numel
over all parameters, and in the mutated model state every parameter
has requires_grad set to false. -/
theorem freeze_params_spec (model : List NNModule) :
    (freeze_params model).2 = ((named_parameters model).map numel).sum ∧
      (freeze_params model).1.length = model.length ∧
      ∀ p ∈ named_parameters (freeze_params model).1,
        p.requires_grad = false := by
  refine ⟨?_, ?_, ?_⟩
  · simp [freeze_params, foldl_add_numel]
  · simp [freeze_params]
  · intro p hp
    simp only [freeze_params, named_parameters] at hp
    rw [List.mem_flatMap] at hp
    obtain ⟨mod, hmod, hpin⟩ := hp
    rw [List.mem_map] at hmod
    obtain ⟨mod₀, _, rfl⟩ := hmod
    cases mod₀ with
    | dropoutM q => cases hpin
    | layerM n ps =>
        simp only [freezeModule] at hpin
        rw [List.mem_map] at hpin
        obtain ⟨p₀, _, rfl⟩ := hpin
        rfl

/-- Witness for C7 on demoModel: its single parameter comes out with
requires_grad = false, and the reported total is the numel sum. -/
theorem freeze_params_spec_witness :
    (freeze_params demoModel).2 =
        ((named_parameters demoModel).map numel).sum ∧
      ((⟨false, [1, 2]⟩ : ParamT) ∈ named_parameters (freeze_params demoModel).1 ∧
        (⟨false, [1, 2]⟩ : ParamT).requires_grad = false) :=
  ⟨(freeze_params_spec demoModel).1,
   by decide,
   (freeze_params_spec demoModel).2.2 ⟨false, [1, 2]⟩ (by decide)⟩

/-- Claim C10 (frame effects): disable_dropout leaves every non-dropout
module completely unchanged (in particular all parameter values), and
freeze_params preserves the data of every module apart from the
requires_grad flags: dropout probabilities, layer names and all
parameter values are unchanged. -/
theorem mutators_frame_effects (model : List NNModule) :
    ((disable_dropout model).1.length = model.length ∧
      ∀ pr ∈ model.zip (disable_dropout model).1,
        isDropout pr.1 = false → pr.2 = pr.1) ∧
      ((freeze_params model).1.length = model.length ∧
        ∀ pr ∈ model.zip (freeze_params model).1,
          moduleData pr.2 = moduleData pr.1) := by
  refine ⟨⟨?_, ?_⟩, ?_, ?_⟩
  · simp [disable_dropout]
  · intro pr hpr hnd
    have h2 := zip_map_pairs setDropoutZero model pr hpr
    rw [h2]
    cases h : pr.1 with
    | dropoutM p => rw [h] at hnd; simp [isDropout] at hnd
    | layerM n ps => rfl
  · simp [freeze_params]
  · intro pr hpr
    have h2 := zip_map_pairs freezeModule model pr hpr
    rw [h2]
    cases pr.1 with
    | dropoutM p => rfl
    | layerM n ps =>
        simp only [freezeModule, moduleData, List.map_map]
        rfl

/-- Witness for C10 on demoModel: the layer module is untouched by
disable_dropout, and freeze_params preserves the data (name and
values) of both modules. -/
theorem mutators_frame_effects_witness :
    ((NNModule.layerM "lin" [⟨true, [1, 2]⟩],
        NNModule.layerM "lin" [⟨true, [1, 2]⟩]).2 =
      (NNModule.layerM "lin" [⟨true, [1, 2]⟩],
        NNModule.layerM "lin" [⟨true, [1, 2]⟩]).1) ∧
      moduleData (NNModule.layerM "lin" [⟨false, [1, 2]⟩]) =
        moduleData (NNModule.layerM "lin" [⟨true, [1, 2]⟩]) :=
  ⟨(mutators_frame_effects demoModel).1.2
      (NNModule.layerM "lin" [⟨true, [1, 2]⟩],
        NNModule.layerM "lin" [⟨true, [1, 2]⟩]) (by decide) (by decide),
   (mutators_frame_effects demoModel).2.2
      (NNModule.layerM "lin" [⟨true, [1, 2]⟩],
        NNModule.layerM "lin" [⟨false, [1, 2]⟩]) (by decide)⟩

/-- Claim C9: for every batch size B and prefix length L,
score_prefix_and_embedding produces a one-dimensional (B,)-shaped
result (one rational per example), and entry b is obtained by running
the prefix embedder on the sequence whose position 0 holds the
projected completion embedding (with an always-attended mask value 1
there) and whose positions 1..L hold the embedded prefix tokens (with
the original mask), taking the position-0 hidden state, and applying
the final 768-to-1 linear layer (the flattening of the (B,1) scores). -/
theorem score_prefix_and_embedding_spec (V : ℕ) (R : PrefixReranker V)
    (B L : ℕ) (prefix_ids : Fin B → Fin L → Fin V)
    (attention_mask : Fin B → Fin L → ℚ)
    (embeddings : Fin B → Fin 768 → ℚ) :
    ∀ b : Fin B,
      score_prefix_and_embedding V R B L prefix_ids attention_mask
          embeddings b =
        linearLayer 1 768 R.score_weight R.score_bias
          (R.prefix_embedder.forwardFn B (1 + L)
            (fun b' i =>
              if h : i.val = 0 then
                embedding_projection V R (embeddings b')
              else
                R.prefix_embedder.embed_tokens
                  (prefix_ids b' ⟨i.val - 1, by have := i.isLt; omega⟩))
            (fun b' i =>
              if h : i.val = 0 then 1
              else attention_mask b' ⟨i.val - 1, by have := i.isLt; omega⟩)
            b ⟨0, by omega⟩) 0 := by
  intro b
  have hA : cat1 B 1 L
      (fun b' (_ : Fin 1) => embedding_projection V R (embeddings b'))
      (fun b' s => R.prefix_embedder.embed_tokens (prefix_ids b' s)) =
      (fun b' (i : Fin (1 + L)) =>
        if h : i.val = 0 then
          embedding_projection V R (embeddings b')
        else
          R.prefix_embedder.embed_tokens
            (prefix_ids b' ⟨i.val - 1, by have := i.isLt; omega⟩)) := by
    funext b' i
    simp only [cat1]
    by_cases h : i.val < 1
    · have h0 : i.val = 0 := by omega
      rw [dif_pos h, dif_pos h0]
    · have h0 : ¬ i.val = 0 := by omega
      rw [dif_neg h, dif_neg h0]
  have hM : cat1 B 1 L (fun (_ : Fin B) (_ : Fin 1) => (1 : ℚ))
      attention_mask =
      (fun b' (i : Fin (1 + L)) =>
        if h : i.val = 0 then (1 : ℚ)
        else attention_mask b' ⟨i.val - 1, by have := i.isLt; omega⟩) := by
    funext b' i
    simp only [cat1]
    by_cases h : i.val < 1
    · have h0 : i.val = 0 := by omega
      rw [dif_pos h, dif_pos h0]
    · have h0 : ¬ i.val = 0 := by omega
      rw [dif_neg h, dif_neg h0]
  simp only [score_prefix_and_embedding]
  rw [hA, hM]
